import Mathlib

/-!
# Flex-SH command parsing and execution engine: a shallow embedding

This file embeds the core of the Flex-SH shell (a Rust program) in Lean:
the tokenizer and command parser (`src/core/parser.rs`), the program
resolver and the process executor (`src/core/executor.rs`), the `exit`
built-in (`src/builtins/exit.rs`) and the should-exit step of the
interactive loop (`src/core/shell.rs`).  Effectful boundaries (file
system, process spawning, exit statuses, the Ctrl-C signal) are passed in
explicitly as host parameters; everything else is translated directly
from the source.
-/

/-- Structure `ParsedCommand` from `src/core/parser.rs`.  The Rust `HashMap`
fields (`environment`, and the alias table of the parser) are modelled as
association lists with replace-on-insert semantics. -/
structure ParsedCommand where
  program : String
  args : List String
  input_redirect : Option String
  output_redirect : Option String
  append_redirect : Option String
  background : Bool
  pipes : List ParsedCommand
  environment : List (String × String)

/-- Constructor `ParsedCommand::new` from `src/core/parser.rs`. -/
def ParsedCommand.new (program : String) : ParsedCommand :=
  ⟨program, [], none, none, none, false, [], []⟩

/-- Alias table of the parser (field `aliases` of `Parser`): name to raw
replacement text, looked up by first match. -/
abbrev AliasTab := List (String × String)

/-- Lookup in the alias table (`HashMap::get`): first matching key. -/
def lookupAlias : AliasTab → String → Option String
  | [], _ => none
  | (k, v) :: rest, name => if name = k then some v else lookupAlias rest name

/-! Tokenizer (`Parser::tokenize`). -/

/-- The mutable state of the tokenizer loop in `Parser::tokenize`. -/
structure TokState where
  tokens : List String
  current_token : String
  in_quotes : Bool
  quote_char : Char
  escape_next : Bool

/-- One iteration of the `for ch in input.chars()` loop of
`Parser::tokenize`. -/
def tokStep (st : TokState) (ch : Char) : TokState :=
  if st.escape_next then
    { st with current_token := st.current_token.push ch, escape_next := false }
  else if ch = '\\' && st.in_quotes then
    { st with escape_next := true }
  else if ch = '"' || ch = '\'' then
    if !st.in_quotes then
      { st with in_quotes := true, quote_char := ch }
    else if ch = st.quote_char then
      { st with in_quotes := false }
    else
      { st with current_token := st.current_token.push ch }
  else if (ch = ' ' || ch = '\t') && !st.in_quotes then
    if st.current_token ≠ "" then
      { st with tokens := st.tokens ++ [st.current_token], current_token := "" }
    else st
  else
    { st with current_token := st.current_token.push ch }

/-- Function `Parser::tokenize` from `src/core/parser.rs`: fold the loop body over
the characters, then fail on an unterminated quote and flush the last
token if non-empty. -/
def tokenize (input : String) : Except String (List String) :=
  let st := input.toList.foldl tokStep ⟨[], "", false, '"', false⟩
  if st.in_quotes then .error "Unterminated quote"
  else if st.current_token ≠ "" then .ok (st.tokens ++ [st.current_token])
  else .ok st.tokens

/-! Environment-assignment stripping (first loop of `Parser::parse_tokens`). -/

/-- The test and split applied to each token by the first loop of
`Parser::parse_tokens`: `tokens[i].find('=')` (first occurrence), the
guard `eq_pos > 0 && tokens[i].chars().nth(0).unwrap().is_alphabetic()`,
and `split_at(eq_pos)`.  Rust `char::is_alphabetic` is Unicode-aware;
`Char.isAlpha` agrees with it on ASCII, which covers every string these
theorems evaluate. -/
def envAssign (t : String) : Option (String × String) :=
  let cs := t.toList
  match cs.findIdx? (fun c => c = '=') with
  | none => none
  | some i =>
    if 0 < i && (cs.headD ' ').isAlpha then
      some (⟨cs.take i⟩, ⟨cs.drop (i + 1)⟩)
    else none

/-- The first `while i < tokens.len()` loop of `Parser::parse_tokens`:
every token recognised by `envAssign` is removed (in order) and recorded;
all other tokens are kept.  Note the Rust loop scans the whole token
list, not only the tokens before the program name. -/
def stripEnvAssigns : List String → List (String × String) × List String
  | [] => ([], [])
  | t :: rest =>
    match envAssign t with
    | some kv =>
      let r := stripEnvAssigns rest
      (kv :: r.1, r.2)
    | none =>
      let r := stripEnvAssigns rest
      (r.1, t :: r.2)

/-- Map insertion as by `HashMap::insert`: replace the value when the key is present,
otherwise append. -/
def insertEnv (m : List (String × String)) (k v : String) : List (String × String) :=
  if m.any (fun p => p.1 = k) then
    m.map (fun p => if p.1 = k then (k, v) else p)
  else m ++ [(k, v)]

/-- Build the `environment` map by inserting the stripped assignments in
scan order. -/
def envOf (l : List (String × String)) : List (String × String) :=
  l.foldl (fun m kv => insertEnv m kv.1 kv.2) []

/-! Function `Parser::parse_tokens`.

The Rust function recurses on the tokens after a `|`; the recursion is
made structural by threading a fuel counter.  `parse_tokens` below always
supplies `2 * tokens.length + 1` fuel, which is enough: each `walkTokens`
step consumes one fuel and at least one token, and each nested
`parseTokensF` call consumes one fuel and operates on a strictly shorter
suffix, so the fuel branch is never taken from `parse_tokens`. -/

mutual

/-- Function `Parser::parse_tokens` up to the second loop: the empty check, the
assignment-stripping loop, the `No command found` check, and the
program-name assignment (with its second alias lookup
`self.aliases.get(&tokens[0])`). -/
def parseTokensF : Nat → AliasTab → List String → Except String ParsedCommand
  | 0, _, _ => .error "recursion limit"
  | fuel + 1, aliases, tokens =>
    if tokens.isEmpty then .error "No tokens to parse"
    else
      let stripped := stripEnvAssigns tokens
      match stripped.2 with
      | [] => .error "No command found after environment variables"
      | t0 :: rest =>
        let program :=
          match lookupAlias aliases t0 with
          | some aliasValue => aliasValue
          | none => t0
        walkTokens fuel aliases
          { ParsedCommand.new program with environment := envOf stripped.1 } rest

/-- The second `while i < tokens.len()` loop of `Parser::parse_tokens`
(`i` starting at 1): redirections, `&`, `|` (recursing on the remaining
tokens and then breaking), and positional arguments. -/
def walkTokens : Nat → AliasTab → ParsedCommand → List String → Except String ParsedCommand
  | _, _, command, [] => .ok command
  | 0, _, _, _ :: _ => .error "recursion limit"
  | fuel + 1, aliases, command, t :: rest =>
    if t = "<" then
      match rest with
      | [] => .error "Expected filename after <"
      | file :: rest2 =>
        walkTokens fuel aliases { command with input_redirect := some file } rest2
    else if t = ">" then
      match rest with
      | [] => .error "Expected filename after >"
      | file :: rest2 =>
        walkTokens fuel aliases { command with output_redirect := some file } rest2
    else if t = ">>" then
      match rest with
      | [] => .error "Expected filename after >>"
      | file :: rest2 =>
        walkTokens fuel aliases { command with append_redirect := some file } rest2
    else if t = "&" then
      walkTokens fuel aliases { command with background := true } rest
    else if t = "|" then
      if rest.isEmpty then .ok command
      else
        match parseTokensF fuel aliases rest with
        | .error e => .error e
        | .ok pipe_command => .ok { command with pipes := command.pipes ++ [pipe_command] }
    else
      walkTokens fuel aliases { command with args := command.args ++ [t] } rest

end

/-- Function `Parser::parse_tokens` with sufficient fuel. -/
def parse_tokens (aliases : AliasTab) (tokens : List String) : Except String ParsedCommand :=
  parseTokensF (2 * tokens.length + 1) aliases tokens

/-- Rust `str::trim`: drop leading and trailing whitespace.  Modelled at
the character-list level (Lean `Char.isWhitespace` agrees with the Rust
`char::is_whitespace` on the ASCII whitespace the shell meets). -/
def trimString (s : String) : String :=
  ⟨((s.toList.dropWhile Char.isWhitespace).reverse.dropWhile Char.isWhitespace).reverse⟩

/-- Function `Parser::parse` from `src/core/parser.rs`: trim, reject empty input,
tokenize, splice the alias expansion of the first token (one pass), and hand
over to `parse_tokens`. -/
def parse (aliases : AliasTab) (input : String) : Except String ParsedCommand :=
  let input := trimString input
  if input = "" then .error "Empty command"
  else
    match tokenize input with
    | .error e => .error e
    | .ok tokens =>
      match tokens with
      | [] => parse_tokens aliases []
      | t0 :: rest =>
        match lookupAlias aliases t0 with
        | some aliasValue =>
          match tokenize aliasValue with
          | .error e => .error e
          | .ok alias_tokens => parse_tokens aliases (alias_tokens ++ rest)
        | none => parse_tokens aliases (t0 :: rest)

/-! Pipeline stage count.

The executor contract speaks of the number of stages of a pipeline:
the top-level command plus all transitively nested `pipes` entries. -/

mutual

/-- Total number of stages of a parsed command: itself plus all
transitively nested pipeline stages. -/
def stageCount : ParsedCommand → Nat
  | .mk _ _ _ _ _ _ pipes _ => 1 + stageCountList pipes

/-- Sum of `stageCount` over a list of stages. -/
def stageCountList : List ParsedCommand → Nat
  | [] => 0
  | c :: rest => stageCount c + stageCountList rest

end

/-! Program resolver (`Executor::resolve_program_path`). -/

/-- The file-system facts `resolve_program_path` consults.  `isFile c`
models `c.exists() && c.is_file()`, `isDir d` models
`d.exists() && d.is_dir()`, and `pathExists p` models `p.exists()` (the
direct-path branch checks existence only, not file-ness). -/
structure FileSys where
  isFile : String → Bool
  isDir : String → Bool
  pathExists : String → Bool

/-- Path join (`Path::join`) on the Unix path representation. -/
def joinPath (dir name : String) : String := dir ++ "/" ++ name

/-- The per-directory probe of `resolve_program_path`: each executable
extension in order (`name.ext`), then the bare `name`.  On Unix the
extension list is empty, on Windows it is
`["exe", "cmd", "bat", "com"]`; it is a parameter here. -/
def tryDir (fs : FileSys) (exts : List String) (program_name dir : String) : Option String :=
  match exts.findSome? (fun ext =>
      let candidate := joinPath dir (program_name ++ "." ++ ext)
      if fs.isFile candidate then some candidate else none) with
  | some candidate => some candidate
  | none =>
    let candidate := joinPath dir program_name
    if fs.isFile candidate then some candidate else none

/-- The `for path_dir in path_var.split(path_separator)` loop of
`resolve_program_path`: skip empty entries and non-directories, and
return the match from the first such directory. -/
def searchPath (fs : FileSys) (exts : List String) (program_name : String) :
    List String → Option String
  | [] => none
  | dir :: rest =>
    if dir = "" then searchPath fs exts program_name rest
    else if !fs.isDir dir then searchPath fs exts program_name rest
    else
      match tryDir fs exts program_name dir with
      | some candidate => some candidate
      | none => searchPath fs exts program_name rest

/-- Splitting a character list on a separator, as Rust `str::split` does
with a one-character pattern: `"a:b"` gives `["a", "b"]`, the empty
string gives `[""]`, and adjacent separators give empty pieces. -/
def splitSepAux (sep : Char) : List Char → List Char → List String
  | [], acc => [⟨acc.reverse⟩]
  | c :: rest, acc =>
    if c = sep then ⟨acc.reverse⟩ :: splitSepAux sep rest []
    else splitSepAux sep rest (c :: acc)

/-- Rust `path_var.split(path_separator)` for a one-character separator. -/
def splitSep (sep : Char) (s : String) : List String :=
  splitSepAux sep s.toList []

/-- Function `Executor::resolve_program_path` from `src/core/executor.rs`.
`pathVar` is the value of the `PATH` environment variable (`none` when
unset); the Unix list separator `:` is used. -/
def resolve_program_path (fs : FileSys) (exts : List String) (pathVar : Option String)
    (program_name : String) : Option String :=
  if program_name.toList.contains '/' || program_name.toList.contains '\\' then
    if fs.pathExists program_name then some program_name else none
  else
    match pathVar with
    | some pv => searchPath fs exts program_name (splitSep ':' pv)
    | none => none

/-! Executor (`Executor::execute_pipeline`, `Executor::execute_single_command`).

The process-spawning boundary is made explicit: building a stage produces
a `SpawnSpec` describing exactly how `execute_pipeline` configures the
`tokio::process::Command`, and the host decides whether each OS
interaction succeeds. -/

/-- How the stdin of a stage is configured.  `piped` is `Stdio::piped()`: a
NEW anonymous pipe created for this child at spawn time, whose other end
is handed to the shell — it is not connected to any other stage.
`connectedTo i` would be an `Stdio` built from the captured stdout of stage i,
i.e. an inherited pipe end actually wired to stage `i`; the source never
constructs this (it drops the captured stdout handle and stores
`Stdio::piped()` instead), so no definition below produces it. -/
inductive StdinCfg where
  | inherit
  | fromFile (f : String)
  | piped
  | connectedTo (i : Nat)
deriving DecidableEq

/-- How the stdout of a stage is configured (`Stdio::inherit`, redirect file,
append file, or `Stdio::piped()`). -/
inductive StdoutCfg where
  | inherit
  | toFile (f : String)
  | appendTo (f : String)
  | piped
deriving DecidableEq

/-- The child-process specification `execute_pipeline` hands to `spawn`:
resolved path, arguments, per-stage environment, and stdio wiring.  The
working directory and inherited stderr are the same for every stage and
are omitted. -/
structure SpawnSpec where
  path : String
  args : List String
  env : List (String × String)
  stdin : StdinCfg
  stdout : StdoutCfg
deriving DecidableEq

/-- Observable executor actions: spawning the PTY child of
`execute_single_command`, awaiting the termination of a child
(`process.wait()`), and delivering `SIGINT` to a pid (the `nix` `kill`
call in the Ctrl-C branches). -/
inductive Act where
  | spawnPty
  | waitChild (i : Nat)
  | sigint (pid : Nat)
deriving DecidableEq

/-- The host environment of `execute_pipeline`: path resolution, the
file operations for redirections, spawn success, and the pid assigned to
the i-th spawned stage. -/
structure Host where
  resolve : String → Option String
  openRead : String → Except String Unit
  createWrite : String → Except String Unit
  openAppend : String → Except String Unit
  spawn : SpawnSpec → Except String Unit
  pid : Nat → Nat

/-- Stdin configuration of stage `i` in `execute_pipeline`: stage 0 reads
its `input_redirect` file if set (opening it may fail) else inherits; a
later stage takes `previous_stdout.take().unwrap_or(Stdio::piped())`. -/
def stdinSpec (host : Host) (i : Nat) (prev : Option StdinCfg) (c : ParsedCommand) :
    Except String StdinCfg :=
  if i = 0 then
    match c.input_redirect with
    | some f =>
      match host.openRead f with
      | .error e => .error e
      | .ok _ => .ok (StdinCfg.fromFile f)
    | none => .ok StdinCfg.inherit
  else .ok (prev.getD StdinCfg.piped)

/-- Stdout configuration of stage `i` of `n` in `execute_pipeline`: the
last stage honours `output_redirect` then `append_redirect` else
inherits; every interior stage gets `Stdio::piped()`. -/
def stdoutSpec (host : Host) (n i : Nat) (c : ParsedCommand) : Except String StdoutCfg :=
  if i = n - 1 then
    match c.output_redirect with
    | some f =>
      match host.createWrite f with
      | .error e => .error e
      | .ok _ => .ok (StdoutCfg.toFile f)
    | none =>
      match c.append_redirect with
      | some f =>
        match host.openAppend f with
        | .error e => .error e
        | .ok _ => .ok (StdoutCfg.appendTo f)
      | none => .ok StdoutCfg.inherit
  else .ok StdoutCfg.piped

/-- One iteration of the spawning loop of `execute_pipeline`: resolve the
program of the stage (failing the pipeline with a not-found error),
configure stdio, spawn, and compute the next `previous_stdout`.  For an
interior stage the source takes the captured stdout handle of the child,
drops it, and stores a fresh `Stdio::piped()` (`previous_stdout =
Some(Stdio::piped())`); after the last stage `previous_stdout` has been
taken and stays `None`. -/
def buildStage (host : Host) (n i : Nat) (prev : Option StdinCfg) (c : ParsedCommand) :
    Except String (SpawnSpec × Option StdinCfg) :=
  match host.resolve c.program with
  | none => .error ("program not found: " ++ c.program)
  | some path =>
    match stdinSpec host i prev c with
    | .error e => .error e
    | .ok stdin =>
      match stdoutSpec host n i c with
      | .error e => .error e
      | .ok stdout =>
        let spec : SpawnSpec := ⟨path, c.args, c.environment, stdin, stdout⟩
        match host.spawn spec with
        | .error e => .error e
        | .ok _ => .ok (spec, if i < n - 1 then some StdinCfg.piped else none)

/-- The whole spawning loop: returns the stages spawned so far and the
error, if any, that aborted the loop.  On an error the already-spawned
prefix has been spawned (and is simply abandoned by the source). -/
def buildStages (host : Host) (n : Nat) :
    Nat → Option StdinCfg → List ParsedCommand → List SpawnSpec × Option String
  | _, _, [] => ([], none)
  | i, prev, c :: rest =>
    match buildStage host n i prev c with
    | .error e => ([], some e)
    | .ok (spec, prevNext) =>
      let r := buildStages host n (i + 1) prevNext rest
      (spec :: r.1, r.2)

/-- The wait loop of `execute_pipeline`: `exit_code` starts at 0 and is
overwritten by `status.code().unwrap_or(-1)` for each process in order,
so the result is the code of the last process (or -1 when it has none). -/
def lastExitCode (statuses : Nat → Option Int) (n : Nat) : Int :=
  (List.range n).foldl (fun _ i => (statuses i).getD (-1)) 0

/-- Function `Executor::execute_pipeline` from `src/core/executor.rs` for a
command with a non-empty `pipes` list.  `commands` is
`vec![command] ++ command.pipes` — one flattening level only; nested
`pipes` of the elements of `command.pipes` are ignored.  The result
carries the spawned stage specs, the trace of post-spawn actions, and
the exit value.  `interrupted` tells whether the `tokio::select!` race
was won by `signal::ctrl_c()`: in that branch the Unix code sends
`SIGINT` to each child pid and yields 130 at once, with no further
waiting; otherwise each child is awaited in order. -/
def execute_pipeline (host : Host) (statuses : Nat → Option Int) (interrupted : Bool)
    (command : ParsedCommand) : List SpawnSpec × List Act × Except String Int :=
  let commands := command :: command.pipes
  let built := buildStages host commands.length 0 none commands
  match built.2 with
  | some e => (built.1, [], .error e)
  | none =>
    if interrupted then
      (built.1, (List.range built.1.length).map (fun i => Act.sigint (host.pid i)), .ok 130)
    else
      (built.1, (List.range built.1.length).map Act.waitChild,
        .ok (lastExitCode statuses built.1.length))

/-- The fixed registry of built-in command names
(`builtins::get_builtin` in `src/builtins/mod.rs`). -/
def builtin_names : List String :=
  ["cd", "echo", "exit", "help", "history", "ls", "pwd", "alias", "env", "which", "clear"]

/-- Host environment of `execute_single_command`: the PTY spawn result,
whether the Ctrl-C branch of the `tokio::select!` fires, the
parsed exit code (`none` when the `Exited(..)` pattern is absent or the
join fails, giving -1), and the pid of the child. -/
structure SingleHost where
  spawnResult : Except String Unit
  interrupted : Bool
  childCode : Option Int
  pid : Nat

/-- Function `Executor::execute_single_command` from `src/core/executor.rs`.  The
foreground path spawns the command on a PTY and races
`child.wait()` against `signal::ctrl_c()`: on interrupt it sends
`SIGINT` to the pid of the child and immediately returns 130 (no further
wait); otherwise it awaits the child and returns its code.  The
`command.background` path is, literally from the source,
`Err(anyhow!("Background job execution not implemented"))`: nothing is
spawned, registered or printed. -/
def execute_single_command (h : SingleHost) (command : ParsedCommand) :
    List Act × Except String Int :=
  if !command.background then
    match h.spawnResult with
    | .error e => ([], .error e)
    | .ok _ =>
      if h.interrupted then
        ([Act.spawnPty, Act.sigint h.pid], .ok 130)
      else
        ([Act.spawnPty, Act.waitChild 0], .ok (h.childCode.getD (-1)))
  else
    ([], .error "Background job execution not implemented")

/-! Exit built-in and the should-exit step of the interactive loop. -/

/-- Function `ExitCommand::execute` from `src/builtins/exit.rs`: the numeric
argument is parsed into `_exit_code` and discarded; the function always
returns `Ok(130)`, the code the shell loop treats as "terminate". -/
def ExitCommand.execute (command : ParsedCommand) : Int :=
  let _exit_code : Int :=
    match command.args with
    | [] => 0
    | a :: _ => (a.toInt?).getD 0
  130

/-- The `if self.exit_code == 130 { self.should_exit = true; }` step of
`Shell::run_interactive` in `src/core/shell.rs`, as a function from the
previous flag and the exit code of the executed command to the new flag. -/
def runInteractiveShouldExit (should_exit : Bool) (exit_code : Int) : Bool :=
  if exit_code = 130 then true else should_exit

/-! Concrete host fixtures used by the evaluation theorems below. -/

/-- Demo pipeline host: every program resolves to a path under `/bin`,
every file operation and spawn succeeds, and the i-th spawned stage gets
pid `500 + i`. -/
def demoHost : Host :=
  { resolve := fun name => some ("/bin/" ++ name)
    openRead := fun _ => .ok ()
    createWrite := fun _ => .ok ()
    openAppend := fun _ => .ok ()
    spawn := fun _ => .ok ()
    pid := fun i => 500 + i }

/-- Demo exit statuses: the i-th spawned process exits with code `100 + i`. -/
def demoStatuses : Nat → Option Int := fun i => some (100 + (i : Int))

/-- Demo pipeline host on which only the program named `a` resolves. -/
def hostOnlyA : Host :=
  { demoHost with resolve := fun name => if name = "a" then some "/bin/a" else none }

/-- Demo single-command host: spawn succeeds, no interrupt, child exits 0. -/
def demoSingleRun : SingleHost := ⟨.ok (), false, some 0, 77⟩

/-- Demo single-command host: spawn succeeds and the Ctrl-C branch wins. -/
def demoSingleInt : SingleHost := ⟨.ok (), true, none, 77⟩

/-! Claim C1. -/

/-- C1: the claim says that a parsed pipeline of N transitively counted
stages spawns exactly N children and returns the exit code of the last
stage.  Evaluating the code on `a | b | c`: the parser nests the stages
(`pipes` of the top level holds one element, which itself carries `c`),
while `execute_pipeline` flattens one level only, so it spawns just 2
processes (`a` and `b`), never spawns `c`, and returns the exit code of
`b` (stage index 1, here 101), not that of the last stage `c`. -/
theorem C1_three_stage_pipeline_spawns_two :
    (parse [] "a | b | c").toOption.map
      (fun c => (stageCount c,
        (execute_pipeline demoHost demoStatuses false c).1.map SpawnSpec.path,
        (execute_pipeline demoHost demoStatuses false c).2.2)) =
    some (3, (["/bin/a", "/bin/b"], Except.ok 101)) := rfl

/-! Claim C2. -/

/-- C2: the claim says the stdin of stage i+1 is connected to the stdout
of stage i by an anonymous pipe.  Evaluating the code on `a | b`: the
spec built for stage 1 has stdin `StdinCfg.piped` — a fresh pipe created
at spawn time (`previous_stdout` is set to `Stdio::piped()` after the
captured stdout handle of stage 0 is dropped) — which is not the
connected configuration `StdinCfg.connectedTo 0`. -/
theorem C2_interior_stdin_is_fresh_pipe :
    ((parse [] "a | b").toOption.map
        (fun c => (execute_pipeline demoHost demoStatuses false c).1.map SpawnSpec.stdin)
      = some [StdinCfg.inherit, StdinCfg.piped])
    ∧ StdinCfg.piped ≠ StdinCfg.connectedTo 0 :=
  ⟨rfl, by decide⟩

/-! Claim C3. -/

/-- C3: the claim says a non-builtin background command is spawned
without waiting, registered, announced, and reported as exit 0.
Evaluating the code on `sleep 10 &` (background is parsed, `sleep` is
not a builtin): `execute_single_command` performs no action at all and
returns the literal error `Background job execution not implemented`. -/
theorem C3_background_returns_unimplemented_error :
    (parse [] "sleep 10 &").toOption.map
      (fun c => (c.background, builtin_names.contains c.program,
        execute_single_command demoSingleRun c)) =
    some (true, (false, ([], Except.error "Background job execution not implemented"))) := rfl

/-! Claim C4. -/

/-- C4: the claim says that on interrupt the executor signals every
child and does not return 130 until all of them are terminated and
reaped.  Evaluating the code with the Ctrl-C branch winning: the
pipeline path over `a | b` sends SIGINT to both pids and its whole
post-spawn action trace is those two signals — it returns 130 with no
`Act.waitChild` action, i.e. without awaiting any termination; likewise
the single-command path signals the child and returns 130 at once. -/
theorem C4_interrupt_returns_without_reaping :
    ((parse [] "a | b").toOption.map
        (fun c => execute_pipeline demoHost demoStatuses true c)
      = some ([⟨"/bin/a", [], [], StdinCfg.inherit, StdoutCfg.piped⟩,
               ⟨"/bin/b", [], [], StdinCfg.piped, StdoutCfg.inherit⟩],
              ([Act.sigint 500, Act.sigint 501], Except.ok 130)))
    ∧ execute_single_command demoSingleInt (ParsedCommand.new "sleep")
        = ([Act.spawnPty, Act.sigint 77], Except.ok 130) :=
  ⟨rfl, rfl⟩

/-! Claim C5. -/

/-- C5 counterexample: with the alias `ls = "ls -la"` set, parsing `ls`
gives program `"ls -la"` (the raw alias text, through the second alias
lookup of `parse_tokens`) and args `["-la"]`; parsing `ls -la` directly
gives program `"ls"` with an empty alias table, and args
`["-la", "-la"]` with the alias set — in neither reading are the two
parses equal.  And with `a = "b"` and `b = "c"`, parsing `a` yields
program `"c"`: the alias is expanded a second time, contradicting the
claim that one substitution never becomes two. -/
theorem C5_counterexample_alias_roundtrip :
    ((parse [("ls", "ls -la")] "ls").toOption.map (fun c => (c.program, c.args))
        = some ("ls -la", ["-la"]))
    ∧ ((parse [] "ls -la").toOption.map (fun c => (c.program, c.args))
        = some ("ls", ["-la"]))
    ∧ ((parse [("ls", "ls -la")] "ls -la").toOption.map (fun c => (c.program, c.args))
        = some ("ls -la", ["-la", "-la"]))
    ∧ (("ls -la", ["-la"]) ≠ (("ls" : String), (["-la"] : List String)))
    ∧ ((parse [("a", "b"), ("b", "c")] "a").toOption.map (fun c => c.program) = some "c") :=
  ⟨rfl, rfl, rfl, by decide, rfl⟩

/-- C5 amended: after `alias ls=ls -la`, parsing `ls` yields program
`"ls -la"` — the raw alias value, because `parse_tokens` looks the first
token up in the alias table a second time when assigning `program` —
with args `["-la"]`, so it differs from directly parsing `ls -la`; and
an alias whose replacement text is itself a defined alias name IS
expanded a second time through that same lookup (`a = "b"`, `b = "c"`
makes `a` parse to program `"c"`). -/
theorem C5_alias_double_lookup :
    ((parse [("ls", "ls -la")] "ls").toOption.map (fun c => (c.program, c.args))
        = some ("ls -la", ["-la"]))
    ∧ ((parse [("a", "b"), ("b", "c")] "a").toOption.map (fun c => c.program) = some "c") :=
  ⟨rfl, rfl⟩

/-! Claim C6. -/

/-- C6 counterexample: the claim says assignment-shaped tokens after the
program name stay positional arguments.  Parsing `echo A=1` with no
aliases: the code records `A=1` as an environment assignment and leaves
`args` empty, because the stripping loop scans the whole token list. -/
theorem C6_counterexample_assignment_after_program :
    (parse [] "echo A=1").toOption.map (fun c => (c.program, c.args, c.environment))
      = some ("echo", (([] : List String), [("A", "1")])) := rfl

/-! Claim C7. -/

/-- C7 counterexample: the claim says an unresolvable stage means no
child process is spawned at all.  On `a | b` with only `a` resolvable,
`execute_pipeline` returns the not-found error for `b` but has already
spawned stage `a` (one spawned spec), because resolution and spawning
are interleaved in the same loop. -/
theorem C7_counterexample_prefix_spawned :
    (parse [] "a | b").toOption.map
      (fun c => ((execute_pipeline hostOnlyA demoStatuses false c).1,
        (execute_pipeline hostOnlyA demoStatuses false c).2.2)) =
    some ([⟨"/bin/a", [], [], StdinCfg.inherit, StdoutCfg.piped⟩],
      Except.error "program not found: b") := rfl

/-! Claim C9, counterexample part. -/

/-- C9 counterexample: the claim says every successfully parsed command
has a non-empty program.  With the alias `ls` bound to the empty
replacement text (settable via the alias builtin), parsing `A=1 ls`
succeeds and its program is the empty string: the first token `A=1` is
not an alias, the assignment is stripped, and the second alias lookup
maps the remaining token `ls` to `""`. -/
theorem C9_counterexample_empty_alias_program :
    (parse [("ls", "")] "A=1 ls").toOption.map (fun c => c.program) = some "" := rfl

/-! Claim C10. -/

/-- C10: the exit builtin parses its numeric argument into a discarded
local and always returns 130, and the interactive loop of the shell sets
the should-exit flag from false exactly when the executed command
returned 130; hence `exit N` never propagates N and any command
reporting 130 ends the session. -/
theorem C10_exit_builtin_always_130_and_loop_exits_on_130 :
    (∀ command : ParsedCommand, ExitCommand.execute command = 130)
    ∧ (∀ exit_code : Int, runInteractiveShouldExit false exit_code = true ↔ exit_code = 130) := by
  constructor
  · intro command
    rfl
  · intro exit_code
    unfold runInteractiveShouldExit
    split <;> simp_all

/-- Witness for C10: evaluated at `exit 5` and at a non-130 code. -/
theorem C10_exit_builtin_always_130_and_loop_exits_on_130_witness :
    ExitCommand.execute { ParsedCommand.new "exit" with args := ["5"] } = 130
    ∧ (runInteractiveShouldExit false 5 = true ↔ (5 : Int) = 130) :=
  ⟨C10_exit_builtin_always_130_and_loop_exits_on_130.1 _,
   C10_exit_builtin_always_130_and_loop_exits_on_130.2 5⟩

/-! Claim C8: resolver lemmas and theorem. -/

/-- Directories that yield no candidate (empty entries, non-directories,
or directories without a match) are skipped by the search loop. -/
theorem searchPath_append_skip (fs : FileSys) (exts : List String) (name : String)
    (pre rest : List String)
    (h : ∀ d1 ∈ pre, d1 = "" ∨ fs.isDir d1 = false ∨ tryDir fs exts name d1 = none) :
    searchPath fs exts name (pre ++ rest) = searchPath fs exts name rest := by
  induction pre with
  | nil => rfl
  | cons d pre ih =>
    have hd := h d (by simp)
    have htail : ∀ d1 ∈ pre, d1 = "" ∨ fs.isDir d1 = false ∨ tryDir fs exts name d1 = none :=
      fun d1 hm => h d1 (by simp [hm])
    simp only [List.cons_append, searchPath]
    by_cases h0 : d = ""
    · rw [if_pos h0]
      exact ih htail
    · rw [if_neg h0]
      by_cases hdir : fs.isDir d
      · have ht : tryDir fs exts name d = none := by
          rcases hd with h1 | h1 | h1
          · exact absurd h1 h0
          · rw [hdir] at h1; cases h1
          · exact h1
        rw [if_neg (by simp [hdir]), ht]
        exact ih htail
      · rw [if_pos (by simpa using hdir)]
        exact ih htail

/-- C8: for a program name with no path separator, resolution walks the
`PATH` entries in listed order and returns the candidate of the
earliest-listed directory that contains a match; in particular when two
directories both contain an executable of the name, the earlier-listed
one wins. -/
theorem C8_first_path_directory_wins (fs : FileSys) (exts : List String)
    (pathVar name : String) (pre : List String) (d : String) (post : List String)
    (c : String)
    (h1 : name.toList.contains '/' = false)
    (h2 : name.toList.contains '\\' = false)
    (hsplit : splitSep ':' pathVar = pre ++ d :: post)
    (hpre : ∀ d1 ∈ pre, d1 = "" ∨ fs.isDir d1 = false ∨ tryDir fs exts name d1 = none)
    (hd0 : d ≠ "") (hdir : fs.isDir d = true)
    (htry : tryDir fs exts name d = some c) :
    resolve_program_path fs exts (some pathVar) name = some c := by
  unfold resolve_program_path
  rw [h1, h2]
  simp only [Bool.or_self, Bool.false_eq_true, if_false]
  rw [hsplit, searchPath_append_skip fs exts name pre (d :: post) hpre]
  simp only [searchPath]
  rw [if_neg hd0, if_neg (by simp [hdir]), htry]

/-- Demo file system with the executable `x` present in both `/a` and
`/b`, used to instantiate C8. -/
def demoFS : FileSys :=
  { isFile := fun p => p = "/a/x" || p = "/b/x"
    isDir := fun d1 => d1 = "/a" || d1 = "/b"
    pathExists := fun _ => false }

/-- Witness for C8: with `PATH = /a:/b` and `x` present in both
directories, resolution returns `/a/x`, the candidate from the
earlier-listed directory. -/
theorem C8_first_path_directory_wins_witness :
    tryDir demoFS [] "x" "/a" = some "/a/x"
    ∧ tryDir demoFS [] "x" "/b" = some "/b/x"
    ∧ resolve_program_path demoFS [] (some "/a:/b") "x" = some "/a/x" :=
  ⟨rfl, rfl,
    C8_first_path_directory_wins demoFS [] "/a:/b" "x" [] "/a" ["/b"] "/a/x"
      rfl rfl rfl (by simp) (by decide) (by decide) rfl⟩

/-! Claim C7: amended statement, lemmas and theorem. -/

/-- When input files always open, the stdin configuration of a stage
never fails. -/
theorem stdinSpec_ok (host : Host) (i : Nat) (prev : Option StdinCfg) (c : ParsedCommand)
    (hR : ∀ f, host.openRead f = .ok ()) :
    ∃ s, stdinSpec host i prev c = .ok s := by
  unfold stdinSpec
  by_cases h0 : i = 0
  · rw [if_pos h0]
    cases hir : c.input_redirect with
    | none => exact ⟨_, rfl⟩
    | some f => simp only [hR]; exact ⟨_, rfl⟩
  · rw [if_neg h0]
    exact ⟨_, rfl⟩

/-- When output files always open, the stdout configuration of a stage
never fails. -/
theorem stdoutSpec_ok (host : Host) (n i : Nat) (c : ParsedCommand)
    (hW : ∀ f, host.createWrite f = .ok ())
    (hA : ∀ f, host.openAppend f = .ok ()) :
    ∃ s, stdoutSpec host n i c = .ok s := by
  unfold stdoutSpec
  by_cases hl : i = n - 1
  · rw [if_pos hl]
    cases ho : c.output_redirect with
    | some f => simp only [hW]; exact ⟨_, rfl⟩
    | none =>
      cases ha : c.append_redirect with
      | some f => simp only [hA]; exact ⟨_, rfl⟩
      | none => exact ⟨_, rfl⟩
  · rw [if_neg hl]
    exact ⟨_, rfl⟩

/-- When the program of a stage resolves and every host operation
succeeds, building the stage succeeds. -/
theorem buildStage_ok (host : Host) (n i : Nat) (prev : Option StdinCfg)
    (c : ParsedCommand) (p : String)
    (hres : host.resolve c.program = some p)
    (hR : ∀ f, host.openRead f = .ok ())
    (hW : ∀ f, host.createWrite f = .ok ())
    (hA : ∀ f, host.openAppend f = .ok ())
    (hS : ∀ s, host.spawn s = .ok ()) :
    ∃ spec prevN, buildStage host n i prev c = .ok (spec, prevN) := by
  obtain ⟨sin, hsin⟩ := stdinSpec_ok host i prev c hR
  obtain ⟨sout, hsout⟩ := stdoutSpec_ok host n i c hW hA
  unfold buildStage
  rw [hres, hsin, hsout]
  simp only [hS]
  exact ⟨_, _, rfl⟩

/-- When every stage before the first unresolvable one resolves and the
host operations succeed, the spawning loop stops exactly at the
unresolvable stage: it reports the not-found error for that stage and
the spawned prefix is precisely the earlier stages. -/
theorem buildStages_err (host : Host)
    (hR : ∀ f, host.openRead f = .ok ())
    (hW : ∀ f, host.createWrite f = .ok ())
    (hA : ∀ f, host.openAppend f = .ok ())
    (hS : ∀ s, host.spawn s = .ok ()) :
    ∀ (pre : List ParsedCommand) (n i : Nat) (prev : Option StdinCfg)
      (c : ParsedCommand) (post : List ParsedCommand),
      (∀ c1 ∈ pre, (host.resolve c1.program).isSome) →
      host.resolve c.program = none →
      (buildStages host n i prev (pre ++ c :: post)).1.length = pre.length
      ∧ (buildStages host n i prev (pre ++ c :: post)).2
          = some ("program not found: " ++ c.program) := by
  intro pre
  induction pre with
  | nil =>
    intro n i prev c post _ hres
    simp [buildStages, buildStage, hres]
  | cons c1 pre ih =>
    intro n i prev c post hpre hres
    have h1 : (host.resolve c1.program).isSome := hpre c1 (by simp)
    obtain ⟨p, hp⟩ := Option.isSome_iff_exists.mp h1
    obtain ⟨spec, prevN, hb⟩ := buildStage_ok host n i prev c1 p hp hR hW hA hS
    obtain ⟨hl, he⟩ := ih n (i + 1) prevN c post (fun c2 hm => hpre c2 (by simp [hm])) hres
    simp only [List.cons_append, buildStages, hb]
    exact ⟨by simpa using hl, he⟩

/-- C7 amended: when a stage of the pipeline cannot be resolved,
`execute_pipeline` fails with the not-found error for the first such
stage and spawns neither that stage nor any later one — but the stages
before it have already been spawned, because resolution and spawning are
interleaved in one loop (the original claim, that no child is spawned at
all, fails: see the counterexample). -/
theorem C7_unresolvable_stage_spawns_only_prefix (host : Host)
    (sts : Nat → Option Int) (intr : Bool) (command : ParsedCommand)
    (pre : List ParsedCommand) (c : ParsedCommand) (post : List ParsedCommand)
    (hR : ∀ f, host.openRead f = .ok ())
    (hW : ∀ f, host.createWrite f = .ok ())
    (hA : ∀ f, host.openAppend f = .ok ())
    (hS : ∀ s, host.spawn s = .ok ())
    (hdec : command :: command.pipes = pre ++ c :: post)
    (hpre : ∀ c1 ∈ pre, (host.resolve c1.program).isSome)
    (hres : host.resolve c.program = none) :
    (execute_pipeline host sts intr command).2.2
        = .error ("program not found: " ++ c.program)
    ∧ (execute_pipeline host sts intr command).1.length = pre.length := by
  obtain ⟨hl, he⟩ := buildStages_err host hR hW hA hS pre
    (pre ++ c :: post).length 0 none c post hpre hres
  simp only [execute_pipeline]
  rw [hdec, he]
  exact ⟨rfl, hl⟩

/-- Stage `b` of the two-stage demo pipeline. -/
def cmdB : ParsedCommand := ParsedCommand.new "b"

/-- Demo two-stage pipeline `a | b` as a parsed command. -/
def cmdAB : ParsedCommand := { ParsedCommand.new "a" with pipes := [cmdB] }

/-- Witness for the amended C7, on `a | b` with only `a` resolvable:
the pipeline fails with the not-found error for `b` and exactly the one
earlier stage was spawned. -/
theorem C7_unresolvable_stage_spawns_only_prefix_witness :
    (execute_pipeline hostOnlyA demoStatuses false cmdAB).2.2
        = .error "program not found: b"
    ∧ (execute_pipeline hostOnlyA demoStatuses false cmdAB).1.length = 1 :=
  C7_unresolvable_stage_spawns_only_prefix hostOnlyA demoStatuses false cmdAB
    [cmdAB] cmdB []
    (fun _ => rfl) (fun _ => rfl) (fun _ => rfl) (fun _ => rfl)
    rfl
    (by intro c1 h; simp only [List.mem_singleton] at h; subst h; rfl)
    rfl

/-! Claim C6: amended statement, lemmas and theorem. -/

/-- Tokens kept by the stripping loop are tokens of the input list. -/
theorem strip_mem : ∀ (ts : List String) (t : String),
    t ∈ (stripEnvAssigns ts).2 → t ∈ ts := by
  intro ts
  induction ts with
  | nil => intro t ht; simp [stripEnvAssigns] at ht
  | cons t0 rest ih =>
    intro t ht
    simp only [stripEnvAssigns] at ht
    cases he : envAssign t0 with
    | some kv =>
      rw [he] at ht
      exact List.mem_cons_of_mem t0 (ih t ht)
    | none =>
      rw [he] at ht
      rcases List.mem_cons.mp ht with h1 | h1
      · exact h1 ▸ List.mem_cons_self t0 rest
      · exact List.mem_cons_of_mem t0 (ih t h1)

/-- Tokens kept by the stripping loop are not assignment-shaped. -/
theorem strip_no_assign : ∀ (ts : List String) (t : String),
    t ∈ (stripEnvAssigns ts).2 → envAssign t = none := by
  intro ts
  induction ts with
  | nil => intro t ht; simp [stripEnvAssigns] at ht
  | cons t0 rest ih =>
    intro t ht
    simp only [stripEnvAssigns] at ht
    cases he : envAssign t0 with
    | some kv =>
      rw [he] at ht
      exact ih t ht
    | none =>
      rw [he] at ht
      rcases List.mem_cons.mp ht with h1 | h1
      · exact h1 ▸ he
      · exact ih t h1

/-- The token walk never touches the environment of the command under
construction, and every positional argument it adds is drawn from the
walked token list. -/
theorem walk_env_args : ∀ (fuel : Nat) (aliases : AliasTab) (cmd0 : ParsedCommand)
    (ts : List String) (out : ParsedCommand),
    walkTokens fuel aliases cmd0 ts = .ok out →
    out.environment = cmd0.environment ∧ ∀ a ∈ out.args, a ∈ cmd0.args ∨ a ∈ ts := by
  intro fuel
  induction fuel with
  | zero =>
    intro aliases cmd0 ts out h
    cases ts with
    | nil =>
      simp only [walkTokens, Except.ok.injEq] at h
      subst h
      exact ⟨rfl, fun a ha => Or.inl ha⟩
    | cons t rest => simp [walkTokens] at h
  | succ fuel ih =>
    intro aliases cmd0 ts out h
    cases ts with
    | nil =>
      simp only [walkTokens, Except.ok.injEq] at h
      subst h
      exact ⟨rfl, fun a ha => Or.inl ha⟩
    | cons t rest =>
      simp only [walkTokens] at h
      split_ifs at h with h1 h2 h3 h4 h5 h6
      · cases rest with
        | nil => simp at h
        | cons file rest2 =>
          obtain ⟨he, ha⟩ := ih aliases _ rest2 out h
          refine ⟨by simpa using he, fun a hm => ?_⟩
          rcases ha a hm with hx | hx
          · exact Or.inl (by simpa using hx)
          · exact Or.inr (by simp [hx])
      · cases rest with
        | nil => simp at h
        | cons file rest2 =>
          obtain ⟨he, ha⟩ := ih aliases _ rest2 out h
          refine ⟨by simpa using he, fun a hm => ?_⟩
          rcases ha a hm with hx | hx
          · exact Or.inl (by simpa using hx)
          · exact Or.inr (by simp [hx])
      · cases rest with
        | nil => simp at h
        | cons file rest2 =>
          obtain ⟨he, ha⟩ := ih aliases _ rest2 out h
          refine ⟨by simpa using he, fun a hm => ?_⟩
          rcases ha a hm with hx | hx
          · exact Or.inl (by simpa using hx)
          · exact Or.inr (by simp [hx])
      · obtain ⟨he, ha⟩ := ih aliases _ rest out h
        refine ⟨by simpa using he, fun a hm => ?_⟩
        rcases ha a hm with hx | hx
        · exact Or.inl (by simpa using hx)
        · exact Or.inr (by simp [hx])
      · simp only [Except.ok.injEq] at h
        subst h
        exact ⟨rfl, fun a ha => Or.inl ha⟩
      · revert h
        cases hp : parseTokensF fuel aliases rest <;> intro h
        · simp at h
        · simp only [Except.ok.injEq] at h
          subst h
          exact ⟨rfl, fun a ha => Or.inl (by simpa using ha)⟩
      · obtain ⟨he, ha⟩ := ih aliases _ rest out h
        refine ⟨by simpa using he, fun a hm => ?_⟩
        rcases ha a hm with hx | hx
        · have hx2 : a ∈ cmd0.args ∨ a = t := by simpa using hx
          rcases hx2 with hy | hy
          · exact Or.inl hy
          · exact Or.inr (by simp [hy])
        · exact Or.inr (by simp [hx])

/-- C6 amended: the stripping loop removes assignment-shaped tokens from
the WHOLE token list, wherever they appear — the environment of a parsed
stage is exactly the map built from all stripped assignments, and no
surviving positional argument is assignment-shaped.  (The original
claim, that scanning stops at the program name and a later `NAME=value`
token stays an argument, fails: see the counterexample.) -/
theorem C6_assignments_stripped_from_whole_list (aliases : AliasTab)
    (ts : List String) (cmd : ParsedCommand)
    (h : parse_tokens aliases ts = .ok cmd) :
    cmd.environment = envOf (stripEnvAssigns ts).1
    ∧ ∀ a ∈ cmd.args, envAssign a = none := by
  unfold parse_tokens at h
  simp only [parseTokensF] at h
  by_cases hne : ts.isEmpty
  · simp [hne] at h
  · rw [if_neg (by simpa using hne)] at h
    revert h
    cases hs : (stripEnvAssigns ts).2 <;> intro h
    · simp at h
    · rename_i t0 rest
      obtain ⟨henv, hargs⟩ := walk_env_args _ _ _ _ _ h
      constructor
      · simpa [ParsedCommand.new] using henv
      · intro a ha
        rcases hargs a ha with h1 | h1
        · simp [ParsedCommand.new] at h1
        · exact strip_no_assign ts a (hs ▸ List.mem_cons_of_mem t0 h1)

/-- Witness for the amended C6, on the token list of `echo A=1`: the
assignment after the program name lands in the environment and the
parsed arguments contain no assignment-shaped token. -/
theorem C6_assignments_stripped_from_whole_list_witness :
    (⟨"echo", [], none, none, none, false, [], [("A", "1")]⟩ : ParsedCommand).environment
        = envOf (stripEnvAssigns ["echo", "A=1"]).1
    ∧ ∀ a ∈ (⟨"echo", [], none, none, none, false, [], [("A", "1")]⟩ : ParsedCommand).args,
        envAssign a = none :=
  C6_assignments_stripped_from_whole_list [] ["echo", "A=1"] _ rfl

/-! Claim C9: amended statement, lemmas and theorem. -/

/-- The tokenizer loop only ever appends the current token to the token
list when it is non-empty. -/
theorem tokStep_tokens_ne (st : TokState) (ch : Char)
    (h : ∀ t ∈ st.tokens, t ≠ "") : ∀ t ∈ (tokStep st ch).tokens, t ≠ "" := by
  intro t ht
  unfold tokStep at ht
  split_ifs at ht with e1 e2 e3 e4 e5 e6 e7
  all_goals
    first
      | exact h t ht
      | (rcases List.mem_append.mp ht with h1 | h1
         · exact h t h1
         · simp only [List.mem_singleton] at h1
           subst h1
           assumption)

/-- Folding the tokenizer loop preserves non-emptiness of the tokens. -/
theorem foldl_tokStep_ne : ∀ (cs : List Char) (st : TokState),
    (∀ t ∈ st.tokens, t ≠ "") → ∀ t ∈ (cs.foldl tokStep st).tokens, t ≠ "" := by
  intro cs
  induction cs with
  | nil => intro st h; simpa using h
  | cons c cs ih =>
    intro st h
    simp only [List.foldl_cons]
    exact ih (tokStep st c) (tokStep_tokens_ne st c h)

/-- Every token produced by the tokenizer is a non-empty string. -/
theorem tokenize_ne (s : String) (ts : List String) (h : tokenize s = .ok ts) :
    ∀ t ∈ ts, t ≠ "" := by
  simp only [tokenize] at h
  split_ifs at h with h1 h2
  · simp only [Except.ok.injEq] at h
    subst h
    intro t ht
    rcases List.mem_append.mp ht with hx | hx
    · exact foldl_tokStep_ne _ _ (by simp) t hx
    · simp only [List.mem_singleton] at hx
      subst hx
      exact h2
  · simp only [Except.ok.injEq] at h
    subst h
    intro t ht
    exact foldl_tokStep_ne _ _ (by simp) t ht

/-- A value returned by the alias lookup is the value of some table entry. -/
theorem lookupAlias_val_mem : ∀ (l : AliasTab) (k v : String),
    lookupAlias l k = some v → ∃ p ∈ l, p.2 = v := by
  intro l
  induction l with
  | nil => intro k v h; simp [lookupAlias] at h
  | cons p rest ih =>
    intro k v h
    obtain ⟨a, b⟩ := p
    simp only [lookupAlias] at h
    split_ifs at h with hk
    · simp only [Option.some.injEq] at h
      exact ⟨(a, b), by simp, h⟩
    · obtain ⟨q, hq, hv⟩ := ih k v h
      exact ⟨q, by simp [hq], hv⟩

/-- Predicate holding of a parsed command and, transitively, of all its
nested pipeline stages. -/
inductive AllStages (p : ParsedCommand → Prop) : ParsedCommand → Prop
  | intro (c : ParsedCommand) (hc : p c) (hp : ∀ c1 ∈ c.pipes, AllStages p c1) :
      AllStages p c

/-- When every alias value in the table is non-empty and every token is
non-empty, `parse_tokens` only produces commands whose program (at every
nesting level) is non-empty. -/
theorem parseTokensF_program_ne : ∀ fuel : Nat,
    (∀ (aliases : AliasTab) (ts : List String) (cmd : ParsedCommand),
      (∀ kv ∈ aliases, kv.2 ≠ "") → (∀ t ∈ ts, t ≠ "") →
      parseTokensF fuel aliases ts = .ok cmd →
      AllStages (fun c => c.program ≠ "") cmd)
    ∧ (∀ (aliases : AliasTab) (cmd0 : ParsedCommand) (ts : List String)
        (out : ParsedCommand),
      (∀ kv ∈ aliases, kv.2 ≠ "") → (∀ t ∈ ts, t ≠ "") →
      cmd0.program ≠ "" → (∀ c1 ∈ cmd0.pipes, AllStages (fun c => c.program ≠ "") c1) →
      walkTokens fuel aliases cmd0 ts = .ok out →
      AllStages (fun c => c.program ≠ "") out) := by
  intro fuel
  induction fuel with
  | zero =>
    constructor
    · intro aliases ts cmd _ _ h
      simp [parseTokensF] at h
    · intro aliases cmd0 ts out _ _ hprog hpipes h
      cases ts with
      | nil =>
        simp only [walkTokens, Except.ok.injEq] at h
        subst h
        exact AllStages.intro _ hprog hpipes
      | cons t rest => simp [walkTokens] at h
  | succ fuel ih =>
    obtain ⟨ihp, ihw⟩ := ih
    constructor
    · intro aliases ts cmd hals hts h
      simp only [parseTokensF] at h
      by_cases hne : ts.isEmpty
      · rw [if_pos hne] at h
        simp at h
      · rw [if_neg hne] at h
        revert h
        cases hs : (stripEnvAssigns ts).2 <;> intro h
        · simp at h
        · rename_i t0 rest
          have hrest : ∀ t ∈ rest, t ≠ "" :=
            fun t htm => hts t (strip_mem ts t (hs ▸ List.mem_cons_of_mem t0 htm))
          refine ihw aliases _ rest cmd hals hrest ?_ ?_ h
          · have ht0 : t0 ≠ "" := hts t0 (strip_mem ts t0 (hs ▸ List.mem_cons_self t0 rest))
            simp only [ParsedCommand.new]
            cases hl : lookupAlias aliases t0 with
            | some v =>
              obtain ⟨p, hp, hpv⟩ := lookupAlias_val_mem aliases t0 v hl
              exact hpv ▸ hals p hp
            | none => exact ht0
          · simp [ParsedCommand.new]
    · intro aliases cmd0 ts out hals hts hprog hpipes h
      cases ts with
      | nil =>
        simp only [walkTokens, Except.ok.injEq] at h
        subst h
        exact AllStages.intro _ hprog hpipes
      | cons t rest =>
        have hrest : ∀ x ∈ rest, x ≠ "" := fun x hm => hts x (List.mem_cons_of_mem t hm)
        simp only [walkTokens] at h
        split_ifs at h with h1 h2 h3 h4 h5 h6
        · cases rest with
          | nil => simp at h
          | cons file rest2 =>
            exact ihw aliases _ rest2 out hals
              (fun x hm => hrest x (List.mem_cons_of_mem file hm))
              (by simpa using hprog) (by simpa using hpipes) h
        · cases rest with
          | nil => simp at h
          | cons file rest2 =>
            exact ihw aliases _ rest2 out hals
              (fun x hm => hrest x (List.mem_cons_of_mem file hm))
              (by simpa using hprog) (by simpa using hpipes) h
        · cases rest with
          | nil => simp at h
          | cons file rest2 =>
            exact ihw aliases _ rest2 out hals
              (fun x hm => hrest x (List.mem_cons_of_mem file hm))
              (by simpa using hprog) (by simpa using hpipes) h
        · exact ihw aliases _ rest out hals hrest
            (by simpa using hprog) (by simpa using hpipes) h
        · simp only [Except.ok.injEq] at h
          subst h
          exact AllStages.intro _ hprog hpipes
        · revert h
          cases hp : parseTokensF fuel aliases rest <;> intro h
          · simp at h
          · rename_i pc
            simp only [Except.ok.injEq] at h
            subst h
            have hpc := ihp aliases rest pc hals hrest hp
            refine AllStages.intro _ (by simpa using hprog) ?_
            intro c1 hc1
            have hc1m : c1 ∈ cmd0.pipes ∨ c1 = pc := by simpa using hc1
            rcases hc1m with hx | hx
            · exact hpipes c1 hx
            · exact hx ▸ hpc
        · exact ihw aliases _ rest out hals hrest
            (by simpa using hprog) (by simpa using hpipes) h

/-- C9 amended: provided no alias value is the empty string, every
successfully parsed command — and every transitively nested pipeline
stage — has a non-empty program, and empty or all-whitespace input makes
`parse` return the `Empty command` error rather than an empty command.
(The unamended claim fails when an alias maps to the empty replacement
text: see the counterexample.) -/
theorem C9_program_nonempty_unless_empty_alias :
    (∀ (aliases : AliasTab) (input : String) (cmd : ParsedCommand),
      (∀ kv ∈ aliases, kv.2 ≠ "") →
      parse aliases input = .ok cmd →
      AllStages (fun c => c.program ≠ "") cmd)
    ∧ (∀ (aliases : AliasTab) (input : String),
      trimString input = "" → parse aliases input = .error "Empty command") := by
  constructor
  · intro aliases input cmd hals h
    simp only [parse] at h
    by_cases htr : trimString input = ""
    · rw [if_pos htr] at h
      simp at h
    · rw [if_neg htr] at h
      revert h
      cases htok : tokenize (trimString input) <;> intro h
      · simp at h
      · rename_i tokens
        revert h
        cases tokens with
        | nil =>
          intro h
          simp [parse_tokens, parseTokensF] at h
        | cons t0 rest =>
          intro h
          simp only [] at h
          revert h
          cases hl : lookupAlias aliases t0 <;> intro h
          · unfold parse_tokens at h
            exact (parseTokensF_program_ne _).1 aliases (t0 :: rest) cmd hals
              (tokenize_ne _ _ htok) h
          · rename_i v
            simp only [] at h
            revert h
            cases htv : tokenize v <;> intro h
            · simp at h
            · rename_i vtoks
              unfold parse_tokens at h
              refine (parseTokensF_program_ne _).1 aliases (vtoks ++ rest) cmd hals ?_ h
              intro t htm
              rcases List.mem_append.mp htm with hx | hx
              · exact tokenize_ne _ _ htv t hx
              · exact tokenize_ne _ _ htok t (List.mem_cons_of_mem t0 hx)
  · intro aliases input htr
    simp only [parse]
    rw [if_pos htr]

/-- Witness for the amended C9: with an empty alias table (whose values
are vacuously non-empty), `echo hi` parses to a command all of whose
stages have non-empty programs, and blank input is the empty-command
error. -/
theorem C9_program_nonempty_unless_empty_alias_witness :
    AllStages (fun c => c.program ≠ "")
      (⟨"echo", ["hi"], none, none, none, false, [], []⟩ : ParsedCommand)
    ∧ parse [] "   " = .error "Empty command" :=
  ⟨C9_program_nonempty_unless_empty_alias.1 [] "echo hi" _ (by simp) rfl,
   C9_program_nonempty_unless_empty_alias.2 [] "   " rfl⟩
